import Mathlib

/-!
# A verification of the `oneliners` command-line tool

Shallow embedding of `src/oneliners.rs`: a CLI that stores single-line text
snippets in a newline-delimited file (`~/.oneliners`), lists them, searches
them by substring, and copies a selected match to the clipboard via `xclip`.

The file content is modelled as a `String`; the result of opening the store
file for reading is `Except IOErr String` (the code matches any open error
with `Err(_)`).  Console output is modelled as a list of `Msg` values, one
per `println!` site.  All definitions are computable and follow the Rust
source line by line.
-/

namespace Oneliners

/-- The Unicode `White_Space` code points: the characters recognised by
Rust's `char::is_whitespace`, which `str::trim` strips from both ends. -/
def isRustWhitespace (c : Char) : Bool :=
  let n := c.toNat
  n == 0x09 || n == 0x0A || n == 0x0B || n == 0x0C || n == 0x0D || n == 0x20 ||
  n == 0x85 || n == 0xA0 || n == 0x1680 ||
  (decide (0x2000 ≤ n) && decide (n ≤ 0x200A)) ||
  n == 0x2028 || n == 0x2029 || n == 0x202F || n == 0x205F || n == 0x3000

/-- Rust's `str::trim` on a character list: drop leading and trailing
whitespace characters. -/
def trimChars (l : List Char) : List Char :=
  ((l.dropWhile isRustWhitespace).reverse.dropWhile isRustWhitespace).reverse

/-- Rust's `str::trim`. -/
def rustTrim (s : String) : String := ⟨trimChars s.data⟩

/-- Rust's `str::contains` with a `&str` pattern: `pat` occurs as a
contiguous substring. -/
def isSubstring (pat : List Char) : List Char → Bool
  | [] => pat.isEmpty
  | c :: rest => pat.isPrefixOf (c :: rest) || isSubstring pat rest

/-- Split a character list at every `'\n'` (the newline is not kept).
`Lines`' underlying `read_line` stops after each `'\n'`, so the segments
other than the last are exactly the `'\n'`-terminated chunks. -/
def splitOnNewline : List Char → List (List Char)
  | [] => [[]]
  | c :: rest =>
    if c = '\n' then [] :: splitOnNewline rest
    else
      match splitOnNewline rest with
      | [] => [[c]]
      | h :: t => (c :: h) :: t

/-- Drop one trailing `'\r'`, as `Lines` does after popping the `'\n'`. -/
def stripTrailingCR (l : List Char) : List Char :=
  if l.getLast? = some '\r' then l.dropLast else l

/-- The lines `BufReader::lines()` yields on the whole file content:
every `'\n'`-terminated segment with the `'\n'` (and a `'\r'` just before
it) stripped; a final unterminated segment is yielded verbatim; after a
final `'\n'` no empty line is produced.  (The code's
`filter_map(|line| line.ok())` drops nothing for valid UTF-8 content,
which `String` guarantees.) -/
def rustLines (content : String) : List String :=
  let parts := splitOnNewline content.data
  let terminated := (parts.dropLast.map stripTrailingCR).map String.mk
  match parts.getLast? with
  | some (c :: cs) => terminated ++ [String.mk (c :: cs)]
  | _ => terminated

/-- Why `fs::File::open` can fail.  The code matches every failure with
`Err(_)`, so the three cases let us state that nothing downstream depends
on which one occurred. -/
inductive IOErr where
  | notFound
  | permissionDenied
  | other
  deriving DecidableEq

deriving instance DecidableEq for Except

/-- What opening the store file for reading produced: its full content,
or the open error. -/
abbrev FileState := Except IOErr String

/-- One console message per `println!` site of the program. -/
inductive Msg where
  /-- The two lines of the multi-line rejection in `store_oneliner`
  (the `Error: ...` line and the echoed candidate). -/
  | errMultiLine (entered : String)
  /-- The line `"Snippet stored successfully! [<file_path>]"`. -/
  | storedOk (path : String)
  /-- The line `"Snippet already present."`. -/
  | alreadyPresent
  /-- The line `"No oneliners stored yet."`. -/
  | noOneliners
  /-- The line `"No entries found."`. -/
  | noEntries
  /-- The line `"No matches found."`. -/
  | noMatches
  /-- The line `"<ordinal>: <text>"` printed for a listed or matched entry. -/
  | entry (ordinal : Nat) (text : String)
  /-- The line `"Select a oneliner (1-<count>):"`. -/
  | selectPrompt (count : Nat)
  /-- The line `"Snippet copied to clipboard!"`. -/
  | copied
  deriving DecidableEq

/-- `list_oneliners` (src/oneliners.rs:48-73): print the stored entries,
trimmed, skipping empty lines, at most the first 10, each with a 1-based
ordinal; an open failure reports "No oneliners stored yet.". -/
def list_oneliners (st : FileState) : List Msg :=
  match st with
  | .error _ => [Msg.noOneliners]
  | .ok content =>
    let entries := (((rustLines content).map rustTrim).filter
        (fun line => !decide (line = ""))).take 10
    if entries.isEmpty then [Msg.noEntries]
    else entries.enum.map (fun p => Msg.entry (p.1 + 1) p.2)

/-- `line_exists_in_file` (src/oneliners.rs:75-90): does some stored line,
trimmed, equal the trimmed search string?  An open failure answers `false`. -/
def line_exists_in_file (st : FileState) (search : String) : Bool :=
  match st with
  | .error _ => false
  | .ok content =>
    (rustLines content).any (fun line => decide (rustTrim line = rustTrim search))

/-- `OpenOptions::new().create(true).append(true).open(file_path)` followed
by `writeln!`: an absent file is created, otherwise the line is appended;
the `expect` on any other open failure aborts the process (modelled as
`none`). -/
def appendLine (st : FileState) (oneliner : String) : Option String :=
  match st with
  | .ok content => some (content ++ oneliner ++ "\n")
  | .error .notFound => some (oneliner ++ "\n")
  | .error _ => none

/-- `store_oneliner` (src/oneliners.rs:92-111): reject a candidate
containing `'\n'` or `"\r\n"`; otherwise append it unless an equal
(after trimming) line is already stored. -/
def store_oneliner (oneliner : String) (file_path : String) (st : FileState) :
    Option (FileState × List Msg) :=
  if decide ('\n' ∈ oneliner.data) || isSubstring ['\r', '\n'] oneliner.data then
    some (st, [Msg.errMultiLine oneliner])
  else if !line_exists_in_file st oneliner then
    match appendLine st oneliner with
    | some content => some (Except.ok content, [Msg.storedOk file_path])
    | none => none
  else
    some (st, [Msg.alreadyPresent])

/-- `get_oneliner` (src/oneliners.rs:113-134): the first at most 3 raw
lines that are non-empty and contain the search string as a substring,
in file order; reports "No matches found." when there are none, and
"No oneliners stored yet." on an open failure.  Returns the printed
messages and the returned `Vec<String>`. -/
def get_oneliner (search : String) (st : FileState) : List Msg × List String :=
  match st with
  | .error _ => ([Msg.noOneliners], [])
  | .ok content =>
    let ms := ((rustLines content).filter
        (fun line => !decide (line = "") && isSubstring search.data line.data)).take 3
    (if ms.isEmpty then [Msg.noMatches] else [], ms)

/-- The observable outcomes of the spawn-and-write interaction with the
`xclip` child process. -/
structure ClipboardEnv where
  spawnResult : Except IOErr Unit
  writeResult : Except IOErr Unit
  childExitStatus : Nat

/-- `copy_to_clipboard` (src/oneliners.rs:136-146): the Rust binds the
result of `spawn().and_then(|child| … write_all …)` to `_`, never waits on
or inspects the child, and prints the success message unconditionally. -/
def copy_to_clipboard (text : String) (env : ClipboardEnv) : List Msg :=
  let _ := text
  let _ := env.spawnResult
  let _ := env.writeResult
  [Msg.copied]

/-- `usize::from_str`, as called by `selection.trim().parse::<usize>()`:
an optional leading `'+'`, then one or more ASCII digits, with the value
at most `usize::MAX` (64-bit target); anything else is a parse error. -/
def parseUsize (s : String) : Option Nat :=
  let ds := match s.data with
    | '+' :: rest => rest
    | l => l
  if ds.isEmpty || !ds.all Char.isDigit then none
  else
    let v := ds.foldl (fun a c => 10 * a + (c.toNat - 48)) 0
    if v < 2 ^ 64 then some v else none

/-- The selection step of `main`'s `Get` arm (src/oneliners.rs:183-192):
trim the stdin line, parse it as `usize`, and when `0 < choice` and
`choice <= oneliners.len()` return the snippet handed to the clipboard. -/
def selectSnippet (oneliners : List String) (selection : String) : Option String :=
  match parseUsize (rustTrim selection) with
  | some choice =>
    if 0 < choice ∧ choice ≤ oneliners.length then oneliners.get? (choice - 1)
    else none
  | none => none

/-- `main`'s whole `Get` arm (src/oneliners.rs:177-193): run
`get_oneliner`, echo each match with a 1-based ordinal, and when matches
exist prompt, read one stdin line, and maybe copy the chosen snippet.
Returns the printed messages and the snippet passed to `copy_to_clipboard`
(`none` when the clipboard is not invoked). -/
def main_get (search : String) (st : FileState) (selection : String)
    (env : ClipboardEnv) : List Msg × Option String :=
  let r := get_oneliner search st
  let echo := r.2.enum.map (fun p => Msg.entry (p.1 + 1) p.2)
  if r.2.isEmpty then (r.1 ++ echo, none)
  else
    match selectSnippet r.2 selection with
    | some text =>
      (r.1 ++ echo ++ [Msg.selectPrompt r.2.length] ++ copy_to_clipboard text env,
       some text)
    | none => (r.1 ++ echo ++ [Msg.selectPrompt r.2.length], none)

/-- Run `store_oneliner` once per candidate, in order, threading the file
state; `none` if any step panicked. -/
def storeMany (file_path : String) (ls : List String) (st : FileState) :
    Option FileState :=
  match ls with
  | [] => some st
  | l :: rest =>
    match store_oneliner l file_path st with
    | some p => storeMany file_path rest p.1
    | none => none

/-- The file content obtained by appending each of `ls` as one
`'\n'`-terminated line. -/
def joinAppended (ls : List String) : String :=
  ⟨(ls.map (fun l => l.data ++ ['\n'])).flatten⟩

/-- Is this message an `entry` line? -/
def isEntryMsg : Msg → Bool
  | .entry _ _ => true
  | _ => false

/-- C4's own words for the `get` result: "the first at-most-3 lines that
contain t as a case-sensitive exact substring", with no further filter. -/
def claimedGetResult (t : String) (lines : List String) : List String :=
  (lines.filter (fun l => isSubstring t.data l.data)).take 3

/-- C4 amended: the spec sentence "keep non-empty lines containing the
search substring …, and take at most the first 3 matches". -/
def claimedGetNonempty (t : String) (lines : List String) : List String :=
  (lines.filter (fun l => decide (l ≠ "") && isSubstring t.data l.data)).take 3

/-- C5's words for the `list` entries: lines in file order, each trimmed,
empty lines discarded, the first at most 10 survivors, each with its
1-based ordinal. -/
def claimedListEntries (content : String) : List Msg :=
  (((((rustLines content).map rustTrim).filter
      (fun l => decide (l ≠ ""))).take 10).enum).map
    (fun p => Msg.entry (p.1 + 1) p.2)

/-! ## Lemmas about line splitting -/

theorem splitOnNewline_ne_nil (l : List Char) : splitOnNewline l ≠ [] := by
  cases l with
  | nil => simp [splitOnNewline]
  | cons c rest =>
    simp only [splitOnNewline]
    split
    · simp
    · split <;> simp

theorem splitOnNewline_of_not_mem {l : List Char} (h : '\n' ∉ l) :
    splitOnNewline l = [l] := by
  induction l with
  | nil => rfl
  | cons c rest ih =>
    have hc : c ≠ '\n' := fun hc => h (hc ▸ List.mem_cons_self c rest)
    have hr : '\n' ∉ rest := fun hm => h (List.mem_cons_of_mem c hm)
    simp [splitOnNewline, hc, ih hr]

theorem splitOnNewline_append {A : List Char} (B : List Char) (h : '\n' ∉ A) :
    splitOnNewline (A ++ '\n' :: B) = A :: splitOnNewline B := by
  induction A with
  | nil => simp [splitOnNewline]
  | cons c rest ih =>
    have hc : c ≠ '\n' := fun hc => h (hc ▸ List.mem_cons_self c rest)
    have hr : '\n' ∉ rest := fun hm => h (List.mem_cons_of_mem c hm)
    simp only [List.cons_append, splitOnNewline, if_neg hc, List.append_eq, ih hr]

theorem rustLines_empty : rustLines "" = [] := rfl

theorem rustLines_cons (A : List Char) (B : String) (h : '\n' ∉ A) :
    rustLines ⟨A ++ '\n' :: B.data⟩ = String.mk (stripTrailingCR A) :: rustLines B := by
  have hne := splitOnNewline_ne_nil B.data
  rcases hpb : splitOnNewline B.data with _ | ⟨p, ps⟩
  · exact absurd hpb hne
  · simp only [rustLines, splitOnNewline_append B.data h, hpb,
      List.dropLast_cons₂, List.getLast?_cons_cons, List.map_cons]
    cases hgl : (p :: ps).getLast? with
    | none => simp at hgl
    | some x =>
      cases x with
      | nil => simp
      | cons c cs => simp

/-- The one line `writeln!` produces: for a candidate without `'\n'`,
the file `s ++ "\n"` reads back as the single line `s` with a trailing
`'\r'` stripped. -/
theorem rustLines_single (s : String) (h : '\n' ∉ s.data) :
    rustLines (s ++ "\n") = [String.mk (stripTrailingCR s.data)] := by
  have he : (s ++ "\n") = (⟨s.data ++ '\n' :: ("" : String).data⟩ : String) := by
    apply String.ext
    simp [String.data_append]
  rw [he, rustLines_cons s.data "" h, rustLines_empty]

/-! ## Lemmas about trimming -/

theorem trimChars_append_ws {c : Char} (hc : isRustWhitespace c = true) (l : List Char) :
    trimChars (l ++ [c]) = trimChars l := by
  induction l with
  | nil => simp [trimChars, List.dropWhile, hc]
  | cons c' l ih =>
    by_cases hw : isRustWhitespace c' = true
    · have e1 : trimChars (c' :: (l ++ [c])) = trimChars (l ++ [c]) := by
        simp [trimChars, List.dropWhile_cons, hw]
      have e2 : trimChars (c' :: l) = trimChars l := by
        simp [trimChars, List.dropWhile_cons, hw]
      rw [List.cons_append, e1, e2]
      exact ih
    · have hw' : isRustWhitespace c' = false := by simpa using hw
      have key : ∀ M : List Char, trimChars (c' :: M)
          = ((M.reverse ++ [c']).dropWhile isRustWhitespace).reverse := by
        intro M
        simp [trimChars, List.dropWhile_cons, hw', List.reverse_cons]
      rw [List.cons_append, key (l ++ [c]), key l]
      simp [List.reverse_append, List.dropWhile_cons, hc]

theorem trimChars_stripTrailingCR (l : List Char) :
    trimChars (stripTrailingCR l) = trimChars l := by
  unfold stripTrailingCR
  split
  · next hlast =>
    have hne : l ≠ [] := by
      intro h
      subst h
      simp at hlast
    have hr : l.getLast hne = '\r' := by
      have hgl := List.getLast?_eq_getLast l hne
      rw [hgl] at hlast
      exact Option.some.inj hlast
    have hl : l.dropLast ++ ['\r'] = l := by
      have := List.dropLast_append_getLast hne
      rwa [hr] at this
    have h2 : trimChars (l.dropLast ++ ['\r']) = trimChars l.dropLast :=
      trimChars_append_ws (by decide) _
    rw [← h2, hl]
  · rfl

theorem rustTrim_mk_stripTrailingCR (s : String) :
    rustTrim (String.mk (stripTrailingCR s.data)) = rustTrim s := by
  simp [rustTrim, trimChars_stripTrailingCR]

theorem exists_append_dropWhile {α : Type} (p : α → Bool) (l : List α) :
    ∃ C, l = C ++ List.dropWhile p l := by
  induction l with
  | nil => exact ⟨[], rfl⟩
  | cons c l ih =>
    by_cases h : p c = true
    · obtain ⟨C, hC⟩ := ih
      refine ⟨c :: C, ?_⟩
      rw [List.dropWhile_cons, if_pos h, List.cons_append, ← hC]
    · exact ⟨[], by rw [List.dropWhile_cons, if_neg h, List.nil_append]⟩

theorem dropWhile_shape {α : Type} (p : α → Bool) (l : List α) :
    List.dropWhile p l = []
      ∨ ∃ c rest, List.dropWhile p l = c :: rest ∧ p c = false := by
  induction l with
  | nil => left; rfl
  | cons c l ih =>
    by_cases h : p c = true
    · rw [List.dropWhile_cons, if_pos h]
      exact ih
    · right
      exact ⟨c, l, by rw [List.dropWhile_cons, if_neg h], by simpa using h⟩

theorem trimChars_idem (l : List Char) : trimChars (trimChars l) = trimChars l := by
  have hTdef : trimChars l
      = (List.dropWhile isRustWhitespace
          (List.dropWhile isRustWhitespace l).reverse).reverse := rfl
  rcases dropWhile_shape isRustWhitespace
      (List.dropWhile isRustWhitespace l).reverse with hB | ⟨b, bs, hB, hb⟩
  · rw [trimChars, hTdef, hB]
    rfl
  · -- T = trimChars l is the reverse of B = b :: bs with b non-whitespace,
    -- and T is a prefix of A = dropWhile isRustWhitespace l.
    have hA : ∃ C, (List.dropWhile isRustWhitespace l).reverse
        = C ++ (b :: bs) := by
      obtain ⟨C, hC⟩ := exists_append_dropWhile isRustWhitespace
        (List.dropWhile isRustWhitespace l).reverse
      exact ⟨C, by rw [← hB]; exact hC⟩
    obtain ⟨C, hC⟩ := hA
    -- hence A = (b :: bs).reverse ++ C.reverse and T = (b :: bs).reverse
    have hArev : List.dropWhile isRustWhitespace l
        = (b :: bs).reverse ++ C.reverse := by
      have := congrArg List.reverse hC
      simpa [List.reverse_append] using this
    -- the head of A is not whitespace (or A is empty, impossible here)
    have hAne : List.dropWhile isRustWhitespace l ≠ [] := by
      rw [hArev]
      simp
    rcases dropWhile_shape isRustWhitespace l with hA0 | ⟨a, as, hA0, ha⟩
    · exact absurd hA0 hAne
    · -- head of T = head of A = a, with ha : not whitespace
      have hT : trimChars l = (b :: bs).reverse := by rw [hTdef, hB]
      have hTne : trimChars l ≠ [] := by rw [hT]; simp
      -- T is a prefix of A: A = T ++ C.reverse
      have hTA : List.dropWhile isRustWhitespace l = trimChars l ++ C.reverse := by
        rw [hT, hArev]
      -- so T's head is a
      have hshape : ∃ t ts, trimChars l = t :: ts := by
        rcases hTcase : trimChars l with _ | ⟨t, ts⟩
        · exact absurd hTcase hTne
        · exact ⟨t, ts, rfl⟩
      obtain ⟨t, ts, hTcase⟩ := hshape
      have hta : t = a := by
        rw [hA0, hTcase, List.cons_append] at hTA
        injection hTA with h1 h2
        exact h1.symm
      -- step 1: dropWhile on T is T itself
      have s1 : List.dropWhile isRustWhitespace (trimChars l) = trimChars l := by
        rw [hTcase, List.dropWhile_cons, hta, ha]
        simp
      -- step 2: T.reverse = b :: bs, whose head b is not whitespace
      have s2 : List.dropWhile isRustWhitespace (trimChars l).reverse
          = (trimChars l).reverse := by
        rw [hT, List.reverse_reverse, List.dropWhile_cons, hb]
        simp
      calc trimChars (trimChars l)
          = (List.dropWhile isRustWhitespace
              (List.dropWhile isRustWhitespace (trimChars l)).reverse).reverse := rfl
        _ = (List.dropWhile isRustWhitespace (trimChars l).reverse).reverse := by
              rw [s1]
        _ = trimChars l := by rw [s2, List.reverse_reverse]

theorem rustTrim_idem (s : String) : rustTrim (rustTrim s) = rustTrim s := by
  simp [rustTrim, trimChars_idem]

/-! ## Lemmas about substring search -/

theorem isPrefixOf_eq_true_iff {l₁ l₂ : List Char} :
    l₁.isPrefixOf l₂ = true ↔ l₁ <+: l₂ := List.isPrefixOf_iff_prefix

theorem isSubstring_iff (p l : List Char) : isSubstring p l = true ↔ p <:+: l := by
  induction l with
  | nil =>
    simp [isSubstring, List.isEmpty_iff, List.infix_nil]
  | cons c rest ih =>
    simp [isSubstring, isPrefixOf_eq_true_iff, ih, List.infix_cons_iff]

theorem isSubstring_rn_eq_false {l : List Char} (h : '\n' ∉ l) :
    isSubstring ['\r', '\n'] l = false := by
  rw [Bool.eq_false_iff]
  intro hif
  exact h ((isSubstring_iff _ _).mp hif |>.subset (by simp))

theorem multiline_cond_false {s : String} (h : '\n' ∉ s.data) :
    (decide ('\n' ∈ s.data) || isSubstring ['\r', '\n'] s.data) = false := by
  simp [h, isSubstring_rn_eq_false h]

/-! ## Unfolding lemmas for the store operation -/

theorem store_oneliner_fresh {s path : String} {st : FileState} {c : String}
    (h : '\n' ∉ s.data) (hex : line_exists_in_file st s = false)
    (happ : appendLine st s = some c) :
    store_oneliner s path st = some (Except.ok c, [Msg.storedOk path]) := by
  unfold store_oneliner
  simp [multiline_cond_false h, hex, happ]

theorem line_exists_single {s t : String} (hs : '\n' ∉ s.data)
    (heq : rustTrim t = rustTrim s) :
    line_exists_in_file (Except.ok (s ++ "\n")) t = true := by
  simp [line_exists_in_file, rustLines_single s hs, rustTrim_mk_stripTrailingCR, heq]

theorem list_oneliners_single {s : String} (hs : '\n' ∉ s.data)
    (hnb : rustTrim s ≠ "") :
    list_oneliners (Except.ok (s ++ "\n")) = [Msg.entry 1 (rustTrim s)] := by
  simp [list_oneliners, rustLines_single s hs, rustTrim_mk_stripTrailingCR, hnb]

theorem empty_append (s : String) : "" ++ s = s := by
  cases s
  rfl

/-! ## The claims -/

/-- C1, amended: for every candidate `s` without `'\n'` whose trimmed form
is nonempty, storing `s` into an absent or empty store appends `s ++ "\n"`,
and listing then yields exactly one entry, `s` trimmed, with ordinal 1.
(The claim as stated, with no nonemptiness condition, is refuted by
`store_whitespace_only_not_listed`.) -/
theorem store_into_empty_then_list (path s : String)
    (hnl : '\n' ∉ s.data) (hnb : rustTrim s ≠ "") :
    store_oneliner s path (Except.error IOErr.notFound)
        = some (Except.ok (s ++ "\n"), [Msg.storedOk path])
    ∧ store_oneliner s path (Except.ok "")
        = some (Except.ok (s ++ "\n"), [Msg.storedOk path])
    ∧ list_oneliners (Except.ok (s ++ "\n")) = [Msg.entry 1 (rustTrim s)] := by
  refine ⟨store_oneliner_fresh hnl (by rfl) (by rfl), ?_, list_oneliners_single hnl hnb⟩
  apply store_oneliner_fresh hnl (by rfl)
  show some ("" ++ s ++ "\n") = some (s ++ "\n")
  rw [empty_append]

/-- Witness for C1 at `s = "hello"`. -/
theorem store_into_empty_then_list_witness :
    ('\n' ∉ "hello".data ∧ rustTrim "hello" ≠ "")
    ∧ (store_oneliner "hello" "p" (Except.error IOErr.notFound)
        = some (Except.ok ("hello" ++ "\n"), [Msg.storedOk "p"])
      ∧ store_oneliner "hello" "p" (Except.ok "")
        = some (Except.ok ("hello" ++ "\n"), [Msg.storedOk "p"])
      ∧ list_oneliners (Except.ok ("hello" ++ "\n"))
        = [Msg.entry 1 (rustTrim "hello")]) :=
  ⟨⟨by decide, by decide⟩,
    store_into_empty_then_list "p" "hello" (by decide) (by decide)⟩

/-- C1 as stated is false at the whitespace-only candidate `" "`: the
store operation appends it, but listing then prints `No entries found.`
rather than exactly one entry equal to the trimmed candidate. -/
theorem store_whitespace_only_not_listed :
    store_oneliner " " "p" (Except.error IOErr.notFound)
        = some (Except.ok " \n", [Msg.storedOk "p"])
    ∧ list_oneliners (Except.ok " \n") = [Msg.noEntries]
    ∧ list_oneliners (Except.ok " \n") ≠ [Msg.entry 1 (rustTrim " ")] := by
  refine ⟨by decide, by decide, by decide⟩

/-- C2, amended: for candidates `s`, `t` without `'\n'` with equal trimmed
forms, storing `s` into an absent store and then storing `t` leaves the
store with exactly one line; the second store appends nothing and reports
`Snippet already present.`.  In general, whenever some stored line equals
the candidate after trimming, the store operation leaves the file state
unchanged (though when the candidate contains a line break the report is
the multi-line error, not the duplicate report: see
`duplicate_with_newline_reports_multiline`). -/
theorem duplicate_store_reports_already_present (path s t u : String)
    (st : FileState)
    (hs : '\n' ∉ s.data) (ht : '\n' ∉ t.data)
    (heq : rustTrim t = rustTrim s)
    (hex : line_exists_in_file st u = true) :
    store_oneliner s path (Except.error IOErr.notFound)
        = some (Except.ok (s ++ "\n"), [Msg.storedOk path])
    ∧ store_oneliner t path (Except.ok (s ++ "\n"))
        = some (Except.ok (s ++ "\n"), [Msg.alreadyPresent])
    ∧ (rustLines (s ++ "\n")).length = 1
    ∧ ∃ msgs, store_oneliner u path st = some (st, msgs) := by
  refine ⟨store_oneliner_fresh hs (by rfl) (by rfl), ?_, ?_, ?_⟩
  · unfold store_oneliner
    simp [multiline_cond_false ht, line_exists_single hs heq]
  · rw [rustLines_single s hs]
    rfl
  · unfold store_oneliner
    split
    · exact ⟨_, rfl⟩
    · simp [hex]

/-- Witness for C2 at `s = "a"`, `t = " a"`, plus the general invariant at
the stored line `" b "` and candidate `"b"`. -/
theorem duplicate_store_reports_already_present_witness :
    ('\n' ∉ "a".data ∧ '\n' ∉ " a".data ∧ rustTrim " a" = rustTrim "a"
      ∧ line_exists_in_file (Except.ok " b \n") "b" = true)
    ∧ (store_oneliner "a" "p" (Except.error IOErr.notFound)
        = some (Except.ok ("a" ++ "\n"), [Msg.storedOk "p"])
      ∧ store_oneliner " a" "p" (Except.ok ("a" ++ "\n"))
        = some (Except.ok ("a" ++ "\n"), [Msg.alreadyPresent])
      ∧ (rustLines ("a" ++ "\n")).length = 1
      ∧ ∃ msgs, store_oneliner "b" "p" (Except.ok " b \n")
          = some (Except.ok " b \n", msgs)) :=
  ⟨⟨by decide, by decide, by decide, by decide⟩,
    duplicate_store_reports_already_present "p" "a" " a" "b" (Except.ok " b \n")
      (by decide) (by decide) (by decide) (by decide)⟩

/-- C2 as stated is false at `s = "a"`, second candidate `"a\n"`: the two
trimmed forms agree, the second store appends nothing, but it reports the
multi-line error rather than `Snippet already present.`. -/
theorem duplicate_with_newline_reports_multiline :
    rustTrim "a\n" = rustTrim "a"
    ∧ store_oneliner "a\n" "p" (Except.ok "a\n")
        = some (Except.ok "a\n", [Msg.errMultiLine "a\n"])
    ∧ store_oneliner "a\n" "p" (Except.ok "a\n")
        ≠ some (Except.ok "a\n", [Msg.alreadyPresent]) := by
  refine ⟨by decide, by decide, by decide⟩

/-- C3: a candidate containing the sequence `"\n"` or the sequence
`"\r\n"` makes the store operation return with the file state untouched
(no create, no append) and report the multi-line error. -/
theorem multiline_store_leaves_file_unchanged (path s : String) (st : FileState)
    (h : isSubstring ['\n'] s.data = true ∨ isSubstring ['\r', '\n'] s.data = true) :
    store_oneliner s path st = some (st, [Msg.errMultiLine s]) := by
  have hcond : (decide ('\n' ∈ s.data) || isSubstring ['\r', '\n'] s.data) = true := by
    rcases h with h | h
    · have : '\n' ∈ s.data := ((isSubstring_iff _ _).mp h).subset (by simp)
      simp [this]
    · simp [h]
  unfold store_oneliner
  simp [hcond]

/-- Witness for C3 at the candidate `"a\nb"` over a nonempty store. -/
theorem multiline_store_leaves_file_unchanged_witness :
    (isSubstring ['\n'] "a\nb".data = true ∨ isSubstring ['\r', '\n'] "a\nb".data = true)
    ∧ store_oneliner "a\nb" "p" (Except.ok "z\n")
        = some (Except.ok "z\n", [Msg.errMultiLine "a\nb"]) :=
  ⟨Or.inl (by decide),
    multiline_store_leaves_file_unchanged "p" "a\nb" (Except.ok "z\n")
      (Or.inl (by decide))⟩

/-- C8: the clipboard bridge prints the success message whatever the spawn
result, write result and child exit status were; its output never depends
on them. -/
theorem copy_to_clipboard_reports_success_unconditionally (text : String)
    (env env2 : ClipboardEnv) :
    copy_to_clipboard text env = [Msg.copied]
    ∧ copy_to_clipboard text env = copy_to_clipboard text env2 :=
  ⟨rfl, rfl⟩

/-- C9: every read-open failure makes both `list` and `get` report
`No oneliners stored yet.` with an empty result and no error propagation,
and the outputs do not depend on which failure occurred (missing versus
unreadable are indistinguishable). -/
theorem read_open_failure_treated_as_empty_store (t : String) (e e1 e2 : IOErr) :
    list_oneliners (Except.error e) = [Msg.noOneliners]
    ∧ get_oneliner t (Except.error e) = ([Msg.noOneliners], [])
    ∧ list_oneliners (Except.error e1) = list_oneliners (Except.error e2)
    ∧ get_oneliner t (Except.error e1) = get_oneliner t (Except.error e2) :=
  ⟨rfl, rfl, rfl, rfl⟩

/-- C10: a candidate containing `'\r'` but no `'\n'` is not rejected by
the multi-line validation; when no trimmed-equal line is stored and the
append open succeeds, it is appended to the store. -/
theorem carriage_return_only_candidate_is_stored (path s : String)
    (st : FileState) (c : String)
    (_hr : '\r' ∈ s.data) (hn : '\n' ∉ s.data)
    (hdup : line_exists_in_file st s = false)
    (happ : appendLine st s = some c) :
    (decide ('\n' ∈ s.data) || isSubstring ['\r', '\n'] s.data) = false
    ∧ store_oneliner s path st = some (Except.ok c, [Msg.storedOk path]) :=
  ⟨multiline_cond_false hn, store_oneliner_fresh hn hdup happ⟩

/-- Witness for C10 at the candidate `"a\rb"` over an absent store. -/
theorem carriage_return_only_candidate_is_stored_witness :
    ('\r' ∈ "a\rb".data ∧ '\n' ∉ "a\rb".data
      ∧ line_exists_in_file (Except.error IOErr.notFound) "a\rb" = false
      ∧ appendLine (Except.error IOErr.notFound) "a\rb" = some "a\rb\n")
    ∧ ((decide ('\n' ∈ "a\rb".data) || isSubstring ['\r', '\n'] "a\rb".data) = false
      ∧ store_oneliner "a\rb" "p" (Except.error IOErr.notFound)
          = some (Except.ok "a\rb\n", [Msg.storedOk "p"])) :=
  ⟨⟨by decide, by decide, by decide, by decide⟩,
    carriage_return_only_candidate_is_stored "p" "a\rb"
      (Except.error IOErr.notFound) "a\rb\n"
      (by decide) (by decide) (by decide) (by decide)⟩

/-! ## Unfolding lemmas for list and get -/

theorem list_oneliners_ok (content : String) :
    list_oneliners (Except.ok content)
      = if ((((rustLines content).map rustTrim).filter
            (fun line => !decide (line = ""))).take 10).isEmpty
        then [Msg.noEntries]
        else ((((rustLines content).map rustTrim).filter
            (fun line => !decide (line = ""))).take 10).enum.map
          (fun p => Msg.entry (p.1 + 1) p.2) := rfl

theorem get_oneliner_ok (t content : String) :
    get_oneliner t (Except.ok content)
      = (if (((rustLines content).filter
            (fun line => !decide (line = "") && isSubstring t.data line.data)).take 3).isEmpty
         then [Msg.noMatches] else [],
         ((rustLines content).filter
            (fun line => !decide (line = "") && isSubstring t.data line.data)).take 3) := rfl

theorem entry_mem_map_enumFrom {l : List String} {n i : Nat} {m : String}
    (h : Msg.entry i m ∈ (List.enumFrom n l).map (fun p => Msg.entry (p.1 + 1) p.2)) :
    m ∈ l := by
  induction l generalizing n with
  | nil => simp at h
  | cons a l ih =>
    simp only [List.enumFrom, List.map_cons, List.mem_cons] at h
    rcases h with h | h
    · injection h with h1 h2
      exact h2 ▸ List.mem_cons_self a l
    · exact List.mem_cons_of_mem a (ih h)

/-- C4, amended: the `get` result is exactly the first at most 3 non-empty
lines containing the search substring, in file order (the spec's own
wording); the spec's 5-line example holds; and zero matches are reported
with `No matches found.` and an empty result.  (The claim as stated, with
no non-emptiness condition, is refuted by
`get_empty_search_skips_empty_line`.) -/
theorem get_matches_eq_first_three_nonempty (t content tz cz : String)
    (hzero : (get_oneliner tz (Except.ok cz)).2 = []) :
    (get_oneliner t (Except.ok content)).2 = claimedGetNonempty t (rustLines content)
    ∧ get_oneliner "abc" (Except.ok "abc123\nxyz\nabc456\nabc789\nqqq\n")
        = ([], ["abc123", "abc456", "abc789"])
    ∧ get_oneliner tz (Except.ok cz) = ([Msg.noMatches], []) := by
  refine ⟨?_, by decide, ?_⟩
  · show ((rustLines content).filter
        (fun line => !decide (line = "") && isSubstring t.data line.data)).take 3
      = claimedGetNonempty t (rustLines content)
    unfold claimedGetNonempty
    have hpred : (fun l : String => decide (l ≠ "") && isSubstring t.data l.data)
        = (fun l : String => !decide (l = "") && isSubstring t.data l.data) := by
      funext l
      rw [decide_not]
    rw [hpred]
  · have hdef : get_oneliner tz (Except.ok cz)
        = (if (get_oneliner tz (Except.ok cz)).2.isEmpty then [Msg.noMatches] else [],
           (get_oneliner tz (Except.ok cz)).2) := rfl
    rw [hdef, hzero]
    simp

/-- Witness for C4 at the spec example, and the no-match case at search
`"zzz"` over the store `"abc\n"`. -/
theorem get_matches_eq_first_three_nonempty_witness :
    (get_oneliner "abc" (Except.ok "abc123\nxyz\nabc456\nabc789\nqqq\n")).2
        = claimedGetNonempty "abc" (rustLines "abc123\nxyz\nabc456\nabc789\nqqq\n")
    ∧ get_oneliner "abc" (Except.ok "abc123\nxyz\nabc456\nabc789\nqqq\n")
        = ([], ["abc123", "abc456", "abc789"])
    ∧ get_oneliner "zzz" (Except.ok "abc\n") = ([Msg.noMatches], []) :=
  get_matches_eq_first_three_nonempty "abc" "abc123\nxyz\nabc456\nabc789\nqqq\n"
    "zzz" "abc\n" (by decide)

/-- C4 as stated is false at the empty search string over a store whose
file contains an empty line: the empty line contains `""` as a substring,
yet `get` drops it. -/
theorem get_empty_search_skips_empty_line :
    (get_oneliner "" (Except.ok "\nabc\n")).2 = ["abc"]
    ∧ claimedGetResult "" (rustLines "\nabc\n") = ["", "abc"]
    ∧ (get_oneliner "" (Except.ok "\nabc\n")).2
        ≠ claimedGetResult "" (rustLines "\nabc\n") := by
  refine ⟨by decide, by decide, by decide⟩

/-- C6, amended: every entry the `list` operation prints is nonempty and
its own trimmed form (so blank lines never appear in list output), and
every line in the `get` result is non-empty; but `get` does not exclude
whitespace-only (blank but non-empty) lines — see
`get_returns_whitespace_only_line`. -/
theorem blank_excluded_list_empty_excluded_get (content t : String) (i : Nat)
    (m e : String) :
    (Msg.entry i m ∈ list_oneliners (Except.ok content) → m ≠ "" ∧ rustTrim m = m)
    ∧ (e ∈ (get_oneliner t (Except.ok content)).2 → e ≠ "") := by
  constructor
  · intro hm
    rw [list_oneliners_ok] at hm
    by_cases hE : ((((rustLines content).map rustTrim).filter
        (fun line => !decide (line = ""))).take 10).isEmpty
    · rw [if_pos hE] at hm
      simp at hm
    · rw [if_neg hE] at hm
      have hmem : m ∈ ((((rustLines content).map rustTrim).filter
          (fun line => !decide (line = ""))).take 10) :=
        entry_mem_map_enumFrom hm
      have hmf : m ∈ ((rustLines content).map rustTrim).filter
          (fun line => !decide (line = "")) := List.mem_of_mem_take hmem
      have hpred := List.of_mem_filter hmf
      have hmm : m ∈ (rustLines content).map rustTrim := (List.mem_filter.mp hmf).1
      obtain ⟨line, hline, hlm⟩ := List.mem_map.mp hmm
      refine ⟨by simpa using hpred, ?_⟩
      rw [← hlm]
      exact rustTrim_idem line
  · intro he
    have he' : e ∈ ((rustLines content).filter
        (fun line => !decide (line = "") && isSubstring t.data line.data)).take 3 := he
    have hef := List.mem_of_mem_take he'
    have hpred := List.of_mem_filter hef
    have h1 := ((Bool.and_eq_true _ _).mp hpred).1
    simpa using h1

/-- Witness for C6 at the one-line store `"x\n"`, entry `1: x` and search
`"x"`. -/
theorem blank_excluded_list_empty_excluded_get_witness :
    ("x" ≠ "" ∧ rustTrim "x" = "x") ∧ "x" ≠ "" :=
  ⟨(blank_excluded_list_empty_excluded_get "x\n" "x" 1 "x" "x").1 (by decide),
   (blank_excluded_list_empty_excluded_get "x\n" "x" 1 "x" "x").2 (by decide)⟩

/-- C6 as stated is false for `get`: over the store `"   \nx y\n"`, whose
first line is blank (whitespace-only), searching for `" "` returns that
blank line as a match. -/
theorem get_returns_whitespace_only_line :
    (get_oneliner " " (Except.ok "   \nx y\n")).2 = ["   ", "x y"]
    ∧ "   " ∈ (get_oneliner " " (Except.ok "   \nx y\n")).2
    ∧ rustTrim "   " = "" := by
  refine ⟨by decide, by decide, by decide⟩

/-! ## Lemmas about a store built by repeated appends -/

theorem rustLines_joinAppended (ls : List String)
    (h : ∀ l ∈ ls, '\n' ∉ l.data) :
    rustLines (joinAppended ls)
      = ls.map (fun l => String.mk (stripTrailingCR l.data)) := by
  induction ls with
  | nil => rfl
  | cons l ls ih =>
    have hl : '\n' ∉ l.data := h l (List.mem_cons_self _ _)
    have hrest : ∀ x ∈ ls, '\n' ∉ x.data := fun x hx => h x (List.mem_cons_of_mem _ hx)
    have hjoin : joinAppended (l :: ls)
        = (⟨l.data ++ '\n' :: (joinAppended ls).data⟩ : String) := by
      apply String.ext
      simp [joinAppended, List.append_assoc]
    rw [hjoin, rustLines_cons l.data (joinAppended ls) hl, ih hrest, List.map_cons]

theorem line_exists_joinAppended {stored : List String} {u : String}
    (hnl : ∀ l ∈ stored, '\n' ∉ l.data)
    (hne : ∀ l ∈ stored, rustTrim l ≠ rustTrim u) :
    line_exists_in_file (Except.ok (joinAppended stored)) u = false := by
  show (rustLines (joinAppended stored)).any
      (fun line => decide (rustTrim line = rustTrim u)) = false
  rw [rustLines_joinAppended stored hnl, Bool.eq_false_iff]
  intro hany
  obtain ⟨line, hmem, hdec⟩ := List.any_eq_true.mp hany
  obtain ⟨x, hx, hxl⟩ := List.mem_map.mp hmem
  rw [← hxl, rustTrim_mk_stripTrailingCR] at hdec
  exact hne x hx (of_decide_eq_true hdec)

theorem appendLine_joinAppended (stored : List String) (l : String) :
    appendLine (Except.ok (joinAppended stored)) l
      = some (joinAppended (stored ++ [l])) := by
  show some (joinAppended stored ++ l ++ "\n") = some (joinAppended (stored ++ [l]))
  congr 1
  apply String.ext
  simp [joinAppended, String.data_append]

theorem appendLine_notFound (l : String) :
    appendLine (Except.error IOErr.notFound) l = some (joinAppended [l]) := by
  show some (l ++ "\n") = some (joinAppended [l])
  congr 1
  apply String.ext
  simp [joinAppended, String.data_append]

theorem storeMany_joinAppended (path : String) (stored ls : List String)
    (hnl : ∀ l ∈ stored ++ ls, '\n' ∉ l.data)
    (hdist : (stored ++ ls).Pairwise (fun a b => rustTrim a ≠ rustTrim b)) :
    storeMany path ls (Except.ok (joinAppended stored))
      = some (Except.ok (joinAppended (stored ++ ls))) := by
  induction ls generalizing stored with
  | nil => simp [storeMany]
  | cons l rest ih =>
    have hl : '\n' ∉ l.data := hnl l (by simp)
    have hstore : store_oneliner l path (Except.ok (joinAppended stored))
        = some (Except.ok (joinAppended (stored ++ [l])), [Msg.storedOk path]) := by
      apply store_oneliner_fresh hl
      · apply line_exists_joinAppended
        · intro x hx
          exact hnl x (by simp [hx])
        · intro x hx
          exact (List.pairwise_append.mp hdist).2.2 x hx l (by simp)
      · exact appendLine_joinAppended stored l
    have hnl' : ∀ x ∈ (stored ++ [l]) ++ rest, '\n' ∉ x.data := by
      intro x hx
      apply hnl
      simpa [List.append_assoc] using hx
    have hdist' : ((stored ++ [l]) ++ rest).Pairwise
        (fun a b => rustTrim a ≠ rustTrim b) := by
      simpa [List.append_assoc] using hdist
    have hrec := ih (stored ++ [l]) hnl' hdist'
    simp only [storeMany, hstore]
    rw [hrec]
    congr 2
    simp

theorem storeMany_from_absent (path : String) (ls : List String)
    (hnl : ∀ l ∈ ls, '\n' ∉ l.data)
    (hdist : ls.Pairwise (fun a b => rustTrim a ≠ rustTrim b))
    (hne : ls ≠ []) :
    storeMany path ls (Except.error IOErr.notFound)
      = some (Except.ok (joinAppended ls)) := by
  cases ls with
  | nil => exact absurd rfl hne
  | cons l rest =>
    have hl : '\n' ∉ l.data := hnl l (by simp)
    have hstore : store_oneliner l path (Except.error IOErr.notFound)
        = some (Except.ok (joinAppended [l]), [Msg.storedOk path]) :=
      store_oneliner_fresh hl (by rfl) (appendLine_notFound l)
    simp only [storeMany, hstore]
    exact storeMany_joinAppended path [l] rest hnl hdist

theorem list_oneliners_joinAppended (ls : List String)
    (hnl : ∀ l ∈ ls, '\n' ∉ l.data)
    (hnb : ∀ l ∈ ls, rustTrim l ≠ "")
    (hlne : ls ≠ []) :
    list_oneliners (Except.ok (joinAppended ls))
      = ((ls.map rustTrim).take 10).enum.map (fun p => Msg.entry (p.1 + 1) p.2) := by
  rw [list_oneliners_ok, rustLines_joinAppended ls hnl]
  have hmap : (ls.map (fun l => String.mk (stripTrailingCR l.data))).map rustTrim
      = ls.map rustTrim := by
    rw [List.map_map]
    apply List.map_congr_left
    intro x hx
    exact rustTrim_mk_stripTrailingCR x
  rw [hmap]
  have hfilter : (ls.map rustTrim).filter (fun line => !decide (line = ""))
      = ls.map rustTrim := by
    apply List.filter_eq_self.mpr
    intro a ha
    obtain ⟨x, hx, hxa⟩ := List.mem_map.mp ha
    simp [← hxa, hnb x hx]
  rw [hfilter]
  have hne : ¬ ((ls.map rustTrim).take 10).isEmpty = true := by
    cases ls with
    | nil => exact absurd rfl hlne
    | cons a as => simp
  rw [if_neg hne]

/-- The general clause of C5: the entry lines `list` prints are exactly
the lines-in-file-order, trimmed, with empty lines discarded, truncated to
the first 10 survivors, each with its 1-based ordinal. -/
theorem list_filter_entries (content : String) :
    (list_oneliners (Except.ok content)).filter isEntryMsg
      = claimedListEntries content := by
  have hpred : (fun l : String => decide (l ≠ ""))
      = (fun l : String => !decide (l = "")) := by
    funext l
    rw [decide_not]
  unfold claimedListEntries
  rw [hpred, list_oneliners_ok]
  by_cases hE : ((((rustLines content).map rustTrim).filter
      (fun line => !decide (line = ""))).take 10).isEmpty
  · rw [if_pos hE]
    rw [List.isEmpty_iff.mp hE]
    rfl
  · rw [if_neg hE]
    apply List.filter_eq_self.mpr
    intro a ha
    obtain ⟨p, hp, hpa⟩ := List.mem_map.mp ha
    rw [← hpa]
    rfl

/-- C5, amended: the entries `list` prints are the trimmed lines with
empties discarded, truncated to the first 10, with 1-based ordinals; and a
store of 15 appended lines that are pairwise distinct after trimming and
individually nonblank lists exactly the first 10 of them (trimmed) in
append order.  (With a blank line among the 15 the claim as stated fails:
`list_skips_blank_appended_line`.) -/
theorem list_first_ten_of_fifteen_nonblank (path content : String)
    (ls : List String)
    (hlen : ls.length = 15)
    (hnl : ∀ l ∈ ls, '\n' ∉ l.data)
    (hnb : ∀ l ∈ ls, rustTrim l ≠ "")
    (hdist : ls.Pairwise (fun a b => rustTrim a ≠ rustTrim b)) :
    (list_oneliners (Except.ok content)).filter isEntryMsg
        = claimedListEntries content
    ∧ storeMany path ls (Except.error IOErr.notFound)
        = some (Except.ok (joinAppended ls))
    ∧ list_oneliners (Except.ok (joinAppended ls))
        = ((ls.map rustTrim).take 10).enum.map (fun p => Msg.entry (p.1 + 1) p.2) := by
  have hne : ls ≠ [] := by
    intro h
    rw [h] at hlen
    simp at hlen
  exact ⟨list_filter_entries content,
    storeMany_from_absent path ls hnl hdist hne,
    list_oneliners_joinAppended ls hnl hnb hne⟩

/-- The 15 pairwise-distinct nonblank lines used as C5's witness. -/
def fifteenNonblank : List String :=
  ["a1", "a2", "a3", "a4", "a5", "a6", "a7", "a8", "a9", "a10",
   "a11", "a12", "a13", "a14", "a15"]

/-- Witness for C5 at 15 concrete distinct nonblank lines. -/
theorem list_first_ten_of_fifteen_nonblank_witness :
    (list_oneliners (Except.ok "x\n")).filter isEntryMsg
        = claimedListEntries "x\n"
    ∧ storeMany "p" fifteenNonblank (Except.error IOErr.notFound)
        = some (Except.ok (joinAppended fifteenNonblank))
    ∧ list_oneliners (Except.ok (joinAppended fifteenNonblank))
        = ((fifteenNonblank.map rustTrim).take 10).enum.map
            (fun p => Msg.entry (p.1 + 1) p.2) :=
  list_first_ten_of_fifteen_nonblank "p" "x\n" fifteenNonblank
    (by decide) (by decide) (by decide) (by decide)

/-- The 15 distinct appended lines, the first one blank, refuting C5 as
stated. -/
def blankFirstFifteen : List String :=
  [" ", "a1", "a2", "a3", "a4", "a5", "a6", "a7", "a8", "a9",
   "b1", "b2", "b3", "b4", "b5"]

/-- C5's "in particular" clause as stated is false when one of the 15
distinct appended lines is blank: all 15 are appended (the blank one is a
legal snippet), but the listing is not the first 10 appended lines — the
blank first line is skipped and the 11th appended line takes ordinal 10. -/
theorem list_skips_blank_appended_line :
    blankFirstFifteen.length = 15
    ∧ blankFirstFifteen.Pairwise (fun a b => a ≠ b)
    ∧ storeMany "p" blankFirstFifteen (Except.error IOErr.notFound)
        = some (Except.ok (joinAppended blankFirstFifteen))
    ∧ list_oneliners (Except.ok (joinAppended blankFirstFifteen))
        = [Msg.entry 1 "a1", Msg.entry 2 "a2", Msg.entry 3 "a3", Msg.entry 4 "a4",
           Msg.entry 5 "a5", Msg.entry 6 "a6", Msg.entry 7 "a7", Msg.entry 8 "a8",
           Msg.entry 9 "a9", Msg.entry 10 "b1"]
    ∧ list_oneliners (Except.ok (joinAppended blankFirstFifteen))
        ≠ ((blankFirstFifteen.map rustTrim).take 10).enum.map
            (fun p => Msg.entry (p.1 + 1) p.2) := by
  refine ⟨by decide, by decide, by decide, by decide, by decide⟩

/-! ## The interactive selection of the Get command -/

theorem get_oneliner_fst_of_ne {search : String} {st : FileState}
    (h : (get_oneliner search st).2 ≠ []) : (get_oneliner search st).1 = [] := by
  cases st with
  | error e => exact absurd rfl h
  | ok content =>
    rw [get_oneliner_ok] at h ⊢
    rw [if_neg]
    intro hE
    exact h (List.isEmpty_iff.mp hE)

/-- C7, amended: with at least one match found, an input line whose
whitespace-trimmed form parses as `usize` `k` with `1 ≤ k ≤ n` makes the
`k`-th matched line (1-based, file order) go to the clipboard bridge, with
the copied message printed after the echoed matches and the prompt; an
input whose trimmed form fails to parse, or parses outside `1..=n`, causes
no clipboard invocation and the output is exactly the echoed matches and
the prompt — no error message.  (For the claim as stated, which omits the
trimming, see `selection_with_leading_space_copies`.) -/
theorem selection_trimmed_parse_drives_clipboard (search selection : String)
    (st : FileState) (env : ClipboardEnv) (k : Nat)
    (hm : (get_oneliner search st).2 ≠ []) :
    (parseUsize (rustTrim selection) = some k → 0 < k →
      k ≤ (get_oneliner search st).2.length →
      ∃ text, (get_oneliner search st).2.get? (k - 1) = some text
        ∧ main_get search st selection env
            = ((get_oneliner search st).2.enum.map (fun p => Msg.entry (p.1 + 1) p.2)
                ++ [Msg.selectPrompt (get_oneliner search st).2.length] ++ [Msg.copied],
               some text))
    ∧ ((parseUsize (rustTrim selection) = none
          ∨ ∀ j, parseUsize (rustTrim selection) = some j →
              j = 0 ∨ (get_oneliner search st).2.length < j) →
        main_get search st selection env
          = ((get_oneliner search st).2.enum.map (fun p => Msg.entry (p.1 + 1) p.2)
              ++ [Msg.selectPrompt (get_oneliner search st).2.length], none)) := by
  have hfst := get_oneliner_fst_of_ne hm
  have hEmpty : (get_oneliner search st).2.isEmpty = false := by
    rw [Bool.eq_false_iff]
    intro hE
    exact hm (List.isEmpty_iff.mp hE)
  constructor
  · intro hp hk0 hkn
    have hlt : k - 1 < (get_oneliner search st).2.length := by omega
    refine ⟨(get_oneliner search st).2.get ⟨k - 1, hlt⟩, List.get?_eq_get hlt, ?_⟩
    have hsel : selectSnippet (get_oneliner search st).2 selection
        = some ((get_oneliner search st).2.get ⟨k - 1, hlt⟩) := by
      unfold selectSnippet
      rw [hp]
      show (if 0 < k ∧ k ≤ (get_oneliner search st).2.length
          then (get_oneliner search st).2.get? (k - 1) else none)
        = some ((get_oneliner search st).2.get ⟨k - 1, hlt⟩)
      rw [if_pos ⟨hk0, hkn⟩]
      exact List.get?_eq_get hlt
    simp only [main_get, hEmpty, hsel, hfst, copy_to_clipboard]
    simp [List.append_assoc]
  · intro hinv
    have hsel : selectSnippet (get_oneliner search st).2 selection = none := by
      unfold selectSnippet
      rcases hps : parseUsize (rustTrim selection) with _ | j
      · rfl
      · rcases hinv with h | h
        · rw [hps] at h
          exact absurd h (by simp)
        · show (if 0 < j ∧ j ≤ (get_oneliner search st).2.length
              then (get_oneliner search st).2.get? (j - 1) else none) = none
          rw [if_neg]
          rintro ⟨h1, h2⟩
          rcases h j hps with h0 | hgt
          · omega
          · omega
    simp only [main_get, hEmpty, hsel, hfst]
    simp

/-- Witness for C7: two matches, input `"2"`, the second match is copied. -/
theorem selection_trimmed_parse_drives_clipboard_witness :
    (get_oneliner "m" (Except.ok "m1\nm2\n")).2 ≠ []
    ∧ parseUsize (rustTrim "2") = some 2
    ∧ (main_get "m" (Except.ok "m1\nm2\n") "2"
        ⟨Except.ok (), Except.ok (), 0⟩).2 = some "m2" := by
  refine ⟨by decide, by decide, ?_⟩
  obtain ⟨text, h1, h2⟩ :=
    (selection_trimmed_parse_drives_clipboard "m" "2" (Except.ok "m1\nm2\n")
        ⟨Except.ok (), Except.ok (), 0⟩ 2 (by decide)).1
      (by decide) (by decide) (by decide)
  have h3 : (get_oneliner "m" (Except.ok "m1\nm2\n")).2.get? (2 - 1) = some "m2" := by
    decide
  rw [h1] at h3
  injection h3 with h4
  rw [h2, h4]

/-- C7 as stated is false at the input line `" 2"`: it does not itself
parse as an unsigned integer (the code first trims it), yet with two
matches the clipboard bridge is invoked with the second match. -/
theorem selection_with_leading_space_copies :
    parseUsize " 2" = none
    ∧ (main_get "m" (Except.ok "m1\nm2\n") " 2"
        ⟨Except.ok (), Except.ok (), 0⟩).2 = some "m2" := by
  refine ⟨by decide, by decide⟩

end Oneliners
